import Mathlib

/-!
Verification development for the `domain_suffixes` library
(`src/domain_suffixes/suffixes.py`).

Python strings are embedded as `List Char`; Python dictionaries (whose keys
are inserted once and never deleted, and whose insertion order is preserved)
are embedded as association lists; fallible code (KeyError / AttributeError /
IndexError / AssertionError) is embedded with `Except String`.
-/

set_option maxRecDepth 10000

namespace DomainSuffixes

/-- A Python string, embedded as its list of characters. -/
abbrev Str := List Char

/-- Coerce a Lean string literal to the `Str` embedding. -/
def pstr (s : String) : Str := s.data

deriving instance DecidableEq for Except

/-- `fqdn.split(".")`: split a string on the dot character.  Mirrors Python
`str.split(".")`: the result is always non-empty, and empty components are
kept (`"a..b"` gives `["a", "", "b"]`, `""` gives `[""]`). -/
def splitDot : Str → List Str
  | [] => [[]]
  | c :: rest =>
    match splitDot rest with
    | [] => [[]]
    | h :: t => if c = '.' then [] :: h :: t else (c :: h) :: t

/-- `".".join(parts)`. -/
def joinDot : List Str → Str
  | [] => []
  | [x] => x
  | x :: xs => x ++ '.' :: joinDot xs

/-- `PUNY_PREFIX = "xn--"` (suffixes.py line 35). -/
def punyMarker : Str := pstr ("xn--")

/-- `is_puny_code(label)`: `label[:4] == PUNY_PREFIX` (suffixes.py line 42). -/
def isPunyCode (label : Str) : Bool := decide (label.take 4 = punyMarker)

/-- `_TLDInfo` dataclass (suffixes.py lines 137-144).  The `puny`,
`registry` and `create_date` fields hold `None` for some records, so they
are embedded as options.  Dates are kept as strings. -/
structure TLDInfo where
  suffix : Str
  puny : Option Str
  tld_type : Str
  registry : Option Str
  create_date : Option Str
deriving DecidableEq, Repr

/-- A node's `metadata` field, which in Python holds `None`, a `_TLDInfo`
or a `_SuffixInfo` (suffixes.py lines 137-153).
`_SuffixInfo(suffix, is_public, root_suffix)` is embedded as the `sfx`
constructor; its `root_suffix` field holds whatever object the
first-reached node's `metadata` attribute held at insert time, which may
itself be `None`, a `_TLDInfo` or a `_SuffixInfo`, hence the recursive
`Metadata` argument. -/
inductive Metadata where
  | none : Metadata
  | tld : TLDInfo → Metadata
  | sfx : Str → Bool → Metadata → Metadata
deriving DecidableEq, Repr

/-- Truthiness/`is None` test for a metadata slot. -/
def Metadata.isNoneB : Metadata → Bool
  | .none => true
  | _ => false

/-- The `.suffix` attribute shared by `_TLDInfo` and `_SuffixInfo`
(`None` has no such attribute). -/
def mdSuffix : Metadata → Option Str
  | .none => Option.none
  | .tld i => some i.suffix
  | .sfx s _ _ => some s

/-- `_Node` (suffixes.py lines 46-71): label, `is_end` flag, children
dictionary, `is_tld` / `is_suffix` flags, optional metadata.  The children
dictionary is embedded as an association list in insertion order. -/
inductive Node where
  | mk : Str → Bool → List (Str × Node) → Bool → Bool → Metadata → Node

def Node.label : Node → Str
  | .mk l _ _ _ _ _ => l

def Node.is_end : Node → Bool
  | .mk _ e _ _ _ _ => e

def Node.children : Node → List (Str × Node)
  | .mk _ _ c _ _ _ => c

def Node.is_tld : Node → Bool
  | .mk _ _ _ t _ _ => t

def Node.is_suffix : Node → Bool
  | .mk _ _ _ _ s _ => s

def Node.metadata : Node → Metadata
  | .mk _ _ _ _ _ m => m

/-- `_Node.__init__` (suffixes.py lines 49-61). -/
def newNode (label : Str) : Node := .mk label false [] false false .none

/-- `_Node.set_metadata` (suffixes.py lines 63-71): store the metadata and
update the `is_tld` / `is_suffix` / `is_end` flags according to its type;
`set_metadata(None)` stores `None` and leaves the flags untouched. -/
def Node.set_metadata : Node → Metadata → Node
  | .mk l e c t s _, .none => .mk l e c t s .none
  | .mk l e c _ _ _, .tld i => .mk l e c true false (.tld i)
  | .mk l _ c _ _ _, .sfx a b r => .mk l true c false true (.sfx a b r)

/-- `node.children.get(label)`: association-list lookup. -/
def assocFind : List (Str × Node) → Str → Option Node
  | [], _ => none
  | (k, v) :: rest, l => if k = l then some v else assocFind rest l

def lookupChild (n : Node) (l : Str) : Option Node := assocFind n.children l

/-- `node.children[label] = child`: Python dict assignment — an existing key
keeps its position, a new key is appended at the end. -/
def setChild : List (Str × Node) → Str → Node → List (Str × Node)
  | [], l, c => [(l, c)]
  | (k, v) :: rest, l, c => if k = l then (l, c) :: rest else (k, v) :: setChild rest l c

/-- The label-path walk of `_Trie.insert` (suffixes.py lines 85-96) in value
semantics: descend (creating missing nodes) along `labels` and apply
`set_metadata md` to the final node reached. -/
def insertAux : Node → List Str → Metadata → Node
  | n, [], md => n.set_metadata md
  | .mk l e ch t s m, lab :: rest, md =>
    match assocFind ch lab with
    | some c => .mk l e (setChild ch lab (insertAux c rest md)) t s m
    | none => .mk l e (setChild ch lab (insertAux (newNode lab) rest md)) t s m

/-- The `tld_info.metadata` read of `_Trie.insert` (suffixes.py line 101):
`tld_info` is the node reached after the first label; its `metadata`
attribute at the time the `_SuffixInfo` is built equals the metadata the
first-level child had before the insert (or `None` if that child is being
created by the insert). -/
def firstNodeMetadata (n : Node) (labels : List Str) : Metadata :=
  match labels with
  | [] => .none
  | l :: _ =>
    match lookupChild n l with
    | some c => c.metadata
    | none => .none

/-- `_Trie` (suffixes.py lines 74-134). -/
structure Trie where
  root : Node

/-- `_Trie.__init__`: a root node labelled `""` with no children. -/
def Trie.empty : Trie := ⟨newNode []⟩

/-- `_Trie.insert(suffix, metadata=None, is_public_suffix=None)`
(suffixes.py lines 80-102).  Labels are processed right-to-left.  When
`is_public_suffix` is provided the code runs
`assert tld_info is not None` (here: the label list is non-empty) and
`assert metadata is None`, then builds
`_SuffixInfo(suffix, is_public_suffix, tld_info.metadata)` and attaches it
to the final node.  Failed assertions are embedded as `.error`. -/
def Trie.insert (t : Trie) (suffix : Str) (metadata : Metadata)
    (is_public_suffix : Option Bool) : Except String Trie :=
  let labels := (splitDot suffix).reverse
  match is_public_suffix with
  | none => .ok ⟨insertAux t.root labels metadata⟩
  | some p =>
    if labels.isEmpty then .error ("AssertionError")
    else
      match metadata with
      | .none =>
        .ok ⟨insertAux t.root labels (.sfx suffix p (firstNodeMetadata t.root labels))⟩
      | _ => .error ("AssertionError")

/-- `_Trie.get_node(labels)` (suffixes.py lines 104-113): walk the reversed
labels, stepping to a child whenever one matches and staying put otherwise;
return `None` exactly when the walk never left the root.  (In Python the
final `node == self.root` test is object identity; the root object is never
a child of any node, so identity holds iff no step was ever taken, which is
tracked here by a boolean.) -/
def Trie.get_node (t : Trie) (labels : List Str) : Option Node :=
  let r := labels.reverse.foldl
    (fun (acc : Node × Bool) l =>
      match lookupChild acc.1 l with
      | some c => (c, true)
      | none => acc)
    (t.root, false)
  if r.2 then some r.1 else none

/-- The `for i, label in enumerate(rev_labels)` loop of
`_Trie.get_longest_sequence` (suffixes.py lines 127-131): follow children
until the first label with no matching child, returning the node reached
and the final value of the loop variable `i` (the index at which the loop
broke, or the last index if the input was exhausted). -/
def walkLoop : Node → List Str → Nat → Node × Nat
  | n, [], i => (n, i)
  | n, l :: rest, i =>
    match lookupChild n l with
    | none => (n, i)
    | some c =>
      match rest with
      | [] => (c, i)
      | r :: rs => walkLoop c (r :: rs) (i + 1)

/-- Python dict lookup `puny_suffixes[label]` support: the punycode reverse
index is an association list. -/
def plookup : List (Str × Str) → Str → Option Str
  | [], _ => none
  | (k, v) :: rest, l => if k = l then some v else plookup rest l

/-- `_Trie.get_longest_sequence(fqdn, puny_suffixes)` (suffixes.py lines
115-134).  Splits on dots, reverses, substitutes the first reversed label
through `puny_suffixes` when it carries the punycode marker (`KeyError`
when absent — Python `puny_suffixes[...]` raises), then walks the trie and
returns the final node's metadata together with `labels[:-i]` (which is
`[]` when `i == 0`, since Python `-0 == 0`).  The final `if node:` test is
always true (a `_Node` object is truthy), so the function always returns
the pair once the substitution succeeded. -/
def Trie.get_longest_sequence (t : Trie) (fqdn : Str) (puny_suffixes : List (Str × Str)) :
    Except String (Metadata × List Str) :=
  let labels := splitDot fqdn
  match labels.reverse with
  | [] => .error ("IndexError")
  | l0 :: rest =>
    let sub : Except String Str :=
      if isPunyCode l0 then
        match plookup puny_suffixes l0 with
        | some u => .ok u
        | none => .error ("KeyError")
      else .ok l0
    match sub with
    | .error e => .error e
    | .ok l0sub =>
      let w := walkLoop t.root (l0sub :: rest) 0
      let residual := if w.2 = 0 then [] else labels.take (labels.length - w.2)
      .ok (w.1.metadata, residual)

/-!
## IP-literal regular expressions (suffixes.py lines 30-33)

`ipv4_pattern` is anchored (`^...$`), so `re.match` on it is a full-string
match; it is transcribed structurally: the pattern `^(O\.){3}O$` over octet
alternation `O = [0-9]|[1-9][0-9]|1[0-9]{2}|2[0-4][0-9]|25[0-5]` matches a
string exactly when splitting it on dots yields four parts each matching
`O` (octets contain no dots, so the split is exact).

`ipv6_pattern` carries no anchors, so `re.match` succeeds when any
*prefix* of the string matches; it is transcribed as data for a small
Brzozowski-derivative matcher.
-/

/-- One alternative of the `ipv4_pattern` octet:
`[0-9]|[1-9][0-9]|1[0-9]{2}|2[0-4][0-9]|25[0-5]`. -/
def octet : Str → Bool
  | [c] => c.isDigit
  | [c1, c2] => (decide ('1' ≤ c1) && decide (c1 ≤ '9')) && c2.isDigit
  | [c1, c2, c3] =>
    (decide (c1 = '1') && c2.isDigit && c3.isDigit) ||
    (decide (c1 = '2') && decide ('0' ≤ c2) && decide (c2 ≤ '4') && c3.isDigit) ||
    (decide (c1 = '2') && decide (c2 = '5') && decide ('0' ≤ c3) && decide (c3 ≤ '5'))
  | _ => false

/-- The newline character (Python source: the `"\n"` that `$` tolerates). -/
def nlChar : Char := Char.ofNat 10

/-- The body `(octet\.){3}octet` of `ipv4_pattern` matched against an
entire string: four dot-separated octets. -/
def ipv4_body (s : Str) : Bool :=
  match splitDot s with
  | [a, b, c, d] => octet a && octet b && octet c && octet d
  | _ => false

/-- `ipv4_pattern.match(s)` (suffixes.py line 30): the pattern is
`^(octet\.){3}octet$`.  Under Python `re` without `re.MULTILINE`, `$`
matches at the end of the string and also just before a newline that is
the last character, so the anchored match is truthy exactly when the body
matches the whole string, or the string ends in a newline and the body
matches everything before it. -/
def ipv4_match (s : Str) : Bool :=
  ipv4_body s ||
    (match s.getLast? with
     | some c => decide (c = nlChar) && ipv4_body s.dropLast
     | Option.none => false)

/-- `private_ipv4_pattern.match(s)` (suffixes.py line 33):
`(^127\.)|(^10\.)|(^172\.1[6-9]\.|^172\.2[0-9]\.|^172\.3[0-1]\.)|(^192\.168\.)`
under `re.match` — every alternative is start-anchored, so this is a test
whether `s` starts with one of the listed prefixes (single-character
classes expanded into their finitely many literals). -/
def private_ipv4_match (s : Str) : Bool :=
  List.isPrefixOf (pstr ("127.")) s ||
  List.isPrefixOf (pstr ("10.")) s ||
  List.isPrefixOf (pstr ("172.16.")) s ||
  List.isPrefixOf (pstr ("172.17.")) s ||
  List.isPrefixOf (pstr ("172.18.")) s ||
  List.isPrefixOf (pstr ("172.19.")) s ||
  List.isPrefixOf (pstr ("172.20.")) s ||
  List.isPrefixOf (pstr ("172.21.")) s ||
  List.isPrefixOf (pstr ("172.22.")) s ||
  List.isPrefixOf (pstr ("172.23.")) s ||
  List.isPrefixOf (pstr ("172.24.")) s ||
  List.isPrefixOf (pstr ("172.25.")) s ||
  List.isPrefixOf (pstr ("172.26.")) s ||
  List.isPrefixOf (pstr ("172.27.")) s ||
  List.isPrefixOf (pstr ("172.28.")) s ||
  List.isPrefixOf (pstr ("172.29.")) s ||
  List.isPrefixOf (pstr ("172.30.")) s ||
  List.isPrefixOf (pstr ("172.31.")) s ||
  List.isPrefixOf (pstr ("192.168.")) s

/-- Regular-expression abstract syntax: empty language, empty string,
character class (list of inclusive ranges), concatenation, alternation and
counted repetition `r{lo,hi}` (`hi = none` meaning unbounded). -/
inductive Re where
  | emp : Re
  | eps : Re
  | cls : List (Char × Char) → Re
  | cat : Re → Re → Re
  | alt : Re → Re → Re
  | rep : Re → Nat → Option Nat → Re

/-- A single literal character as a one-point class. -/
def chr (c : Char) : Re := .cls [(c, c)]

/-- A literal string. -/
def lit (s : Str) : Re := s.foldr (fun c r => .cat (chr c) r) .eps

def matchCls (ranges : List (Char × Char)) (c : Char) : Bool :=
  ranges.any (fun p => decide (p.1 ≤ c) && decide (c ≤ p.2))

/-- Whether the empty string is in the language. -/
def Re.nullable : Re → Bool
  | .emp => false
  | .eps => true
  | .cls _ => false
  | .cat a b => a.nullable && b.nullable
  | .alt a b => a.nullable || b.nullable
  | .rep r lo _ => decide (lo = 0) || r.nullable

/-- Simplifying alternation (keeps derivatives small). -/
def Re.mkAlt : Re → Re → Re
  | .emp, b => b
  | a, .emp => a
  | a, b => .alt a b

/-- Simplifying concatenation (keeps derivatives small). -/
def Re.mkCat : Re → Re → Re
  | .emp, _ => .emp
  | _, .emp => .emp
  | .eps, b => b
  | a, .eps => a
  | a, b => .cat a b

/-- Brzozowski derivative with respect to one character. -/
def Re.deriv : Re → Char → Re
  | .emp, _ => .emp
  | .eps, _ => .emp
  | .cls rs, c => if matchCls rs c then .eps else .emp
  | .cat a b, c =>
    if a.nullable then Re.mkAlt (Re.mkCat (a.deriv c) b) (b.deriv c)
    else Re.mkCat (a.deriv c) b
  | .alt a b, c => Re.mkAlt (a.deriv c) (b.deriv c)
  | .rep r lo hi, c =>
    match hi with
    | some h =>
      if h = 0 then .emp
      else Re.mkCat (r.deriv c) (.rep r (lo - 1) (some (h - 1)))
    | none => Re.mkCat (r.deriv c) (.rep r (lo - 1) none)

/-- `re.match` semantics for an unanchored pattern: some prefix of the
string (possibly empty) is in the language. -/
def matchHere : Re → Str → Bool
  | r, [] => r.nullable
  | r, c :: rest => r.nullable || matchHere (r.deriv c) rest

/-- Whole-string membership. -/
def fullMatch (r : Re) (s : Str) : Bool := (s.foldl Re.deriv r).nullable

def hexCls : Re := .cls [('0', '9'), ('a', 'f'), ('A', 'F')]

def alnumCls : Re := .cls [('0', '9'), ('a', 'z'), ('A', 'Z')]

/-- `[0-9a-fA-F]{1,4}`. -/
def h16 : Re := .rep hexCls 1 (some 4)

/-- `[0-9a-fA-F]{1,4}:`. -/
def h16colon : Re := .cat h16 (chr ':')

/-- `:[0-9a-fA-F]{1,4}`. -/
def colonH16 : Re := .cat (chr ':') h16

/-- The decimal-octet sub-pattern used inside `ipv6_pattern`:
`(25[0-5]|(2[0-4]|1{0,1}[0-9]){0,1}[0-9])`. -/
def v6dec : Re :=
  .alt (.cat (chr '2') (.cat (chr '5') (.cls [('0', '5')])))
    (.cat
      (.rep (.alt (.cat (chr '2') (.cls [('0', '4')]))
                  (.cat (.rep (chr '1') 0 (some 1)) (.cls [('0', '9')])))
        0 (some 1))
      (.cls [('0', '9')]))

/-- `((25[0-5]|...)\.){3,3}(25[0-5]|...)` — the embedded dotted-quad. -/
def v6v4 : Re := .cat (.rep (.cat v6dec (chr '.')) 3 (some 3)) v6dec

/-- Right-nested alternation of a list of regexes. -/
def altList : List Re → Re
  | [] => .emp
  | [r] => r
  | r :: rs => .alt r (altList rs)

/-- `([0-9a-fA-F]{1,4}:){7,7}[0-9a-fA-F]{1,4}`. -/
def ipv6Alt1 : Re := .cat (.rep h16colon 7 (some 7)) h16

/-- `([0-9a-fA-F]{1,4}:){1,7}:`. -/
def ipv6Alt2 : Re := .cat (.rep h16colon 1 (some 7)) (chr ':')

/-- `([0-9a-fA-F]{1,4}:){1,6}:[0-9a-fA-F]{1,4}`. -/
def ipv6Alt3 : Re := .cat (.rep h16colon 1 (some 6)) colonH16

/-- `([0-9a-fA-F]{1,4}:){1,5}(:[0-9a-fA-F]{1,4}){1,2}`. -/
def ipv6Alt4 : Re := .cat (.rep h16colon 1 (some 5)) (.rep colonH16 1 (some 2))

/-- `([0-9a-fA-F]{1,4}:){1,4}(:[0-9a-fA-F]{1,4}){1,3}`. -/
def ipv6Alt5 : Re := .cat (.rep h16colon 1 (some 4)) (.rep colonH16 1 (some 3))

/-- `([0-9a-fA-F]{1,4}:){1,3}(:[0-9a-fA-F]{1,4}){1,4}`. -/
def ipv6Alt6 : Re := .cat (.rep h16colon 1 (some 3)) (.rep colonH16 1 (some 4))

/-- `([0-9a-fA-F]{1,4}:){1,2}(:[0-9a-fA-F]{1,4}){1,5}`. -/
def ipv6Alt7 : Re := .cat (.rep h16colon 1 (some 2)) (.rep colonH16 1 (some 5))

/-- `[0-9a-fA-F]{1,4}:((:[0-9a-fA-F]{1,4}){1,6})`. -/
def ipv6Alt8 : Re := .cat h16colon (.rep colonH16 1 (some 6))

/-- `:((:[0-9a-fA-F]{1,4}){1,7}|:)`. -/
def ipv6Alt9 : Re := .cat (chr ':') (.alt (.rep colonH16 1 (some 7)) (chr ':'))

/-- `fe80:(:[0-9a-fA-F]{0,4}){0,4}%[0-9a-zA-Z]{1,}`. -/
def ipv6Alt10 : Re :=
  .cat (lit (pstr ("fe80:")))
    (.cat (.rep (.cat (chr ':') (.rep hexCls 0 (some 4))) 0 (some 4))
      (.cat (chr '%') (.rep alnumCls 1 none)))

/-- `::(ffff(:0{1,4}){0,1}:){0,1}` followed by the dotted quad. -/
def ipv6Alt11 : Re :=
  .cat (lit (pstr ("::")))
    (.cat
      (.rep (.cat (lit (pstr ("ffff")))
              (.cat (.rep (.cat (chr ':') (.rep (chr '0') 1 (some 4))) 0 (some 1)) (chr ':')))
        0 (some 1))
      v6v4)

/-- `([0-9a-fA-F]{1,4}:){1,4}:` followed by the dotted quad. -/
def ipv6Alt12 : Re := .cat (.rep h16colon 1 (some 4)) (.cat (chr ':') v6v4)

/-- `ipv6_pattern` (suffixes.py line 31): the alternation of the twelve
alternatives above, in source order. -/
def ipv6Re : Re :=
  altList [ipv6Alt1, ipv6Alt2, ipv6Alt3, ipv6Alt4, ipv6Alt5, ipv6Alt6,
           ipv6Alt7, ipv6Alt8, ipv6Alt9, ipv6Alt10, ipv6Alt11, ipv6Alt12]

/-- `ipv6_pattern.match(s)` (suffixes.py line 31): the pattern has no
anchors, so `re.match` tests whether some prefix of `s` matches. -/
def ipv6_match (s : Str) : Bool := matchHere ipv6Re s

/-- Whole-string membership in `ipv6_pattern` — the "entire string is an
IPv6 literal" reading used by the specification. -/
def ipv6_full_match (s : Str) : Bool := fullMatch ipv6Re s

/-!
## Public API: `ParsedResult` and `Suffixes` (suffixes.py lines 161-450)
-/

/-- The `ParsedResult` dataclass (suffixes.py lines 161-180).  The fields
that Python fills with `None` for IP-literal results are embedded as
options. -/
structure ParsedResult where
  tld : Option Str
  tld_puny : Option Str
  tld_type : Option Str
  tld_registry : Option Str
  tld_create_date : Option Str
  effective_tld : Option Str
  effective_tld_is_public : Option Bool
  host_labels : List Str
  ipv4 : Bool
  ipv6 : Bool
deriving DecidableEq, Repr

/-- Python f-string interpolation of a value that may be `None`. -/
def pyShow : Option Str → Str
  | some s => s
  | Option.none => pstr ("None")

/-- `ParsedResult.is_ip` (suffixes.py lines 217-219). -/
def ParsedResult.is_ip (r : ParsedResult) : Bool := r.ipv4 || r.ipv6

/-- `ParsedResult.is_fqdn` (suffixes.py lines 213-215). -/
def ParsedResult.is_fqdn (r : ParsedResult) : Bool := !r.is_ip

/-- `ParsedResult.registrable_domain` (suffixes.py lines 182-186):
`f"{self.host_labels[-1]}.{self.effective_tld}"` when `is_fqdn`, else
`None`.  Python indexing `[-1]` on an empty list raises `IndexError`. -/
def ParsedResult.registrable_domain (r : ParsedResult) : Except String (Option Str) :=
  if r.is_fqdn then
    match r.host_labels.getLast? with
    | Option.none => .error ("IndexError")
    | some h => .ok (some (h ++ '.' :: pyShow r.effective_tld))
  else .ok Option.none

/-- `ParsedResult.registrable_domain_host` (suffixes.py lines 188-192). -/
def ParsedResult.registrable_domain_host (r : ParsedResult) : Except String (Option Str) :=
  if r.is_fqdn then
    match r.host_labels.getLast? with
    | Option.none => .error ("IndexError")
    | some h => .ok (some h)
  else .ok Option.none

/-- `ParsedResult.fqdn` (suffixes.py lines 194-199): a dot-join plus the
effective TLD for FQDN results, or `host_labels[0]` (the IP string) for IP
results. -/
def ParsedResult.fqdn (r : ParsedResult) : Except String Str :=
  if r.is_fqdn then .ok (joinDot r.host_labels ++ '.' :: pyShow r.effective_tld)
  else
    match r.host_labels with
    | [] => .error ("IndexError")
    | h :: _ => .ok h

/-- `ParsedResult.is_ipv4_private` (suffixes.py lines 244-247): on an IPv4
result, match the literal against `private_ipv4_pattern`; otherwise
`None`. -/
def ParsedResult.is_ipv4_private (r : ParsedResult) : Except String (Option Bool) :=
  if r.ipv4 then
    match r.fqdn with
    | .error e => .error e
    | .ok s => .ok (some (private_ipv4_match s))
  else .ok Option.none

/-- The query-relevant state of a `Suffixes` object (suffixes.py lines
250-276): the suffix trie and the punycode reverse index.  (Construction
of that state downloads external feeds and is outside the embedded
core.) -/
structure Suffixes where
  suffix_trie : Trie
  puny_suffixes : List (Str × Str)

/-- `Suffixes.get_tld` (suffixes.py lines 402-407). -/
def Suffixes.get_tld (S : Suffixes) (fqdn : Str) : Except String (Option Str) :=
  match S.suffix_trie.get_longest_sequence fqdn S.puny_suffixes with
  | .error e => .error e
  | .ok (md, _) => .ok (mdSuffix md)

/-- `Suffixes._ip_result` (suffixes.py lines 448-450). -/
def ip_result (ip : Str) (is_ipv4 : Bool) : ParsedResult :=
  ⟨Option.none, Option.none, Option.none, Option.none, Option.none,
   Option.none, Option.none, [ip], is_ipv4, !is_ipv4⟩

/-- Python `sub in s` substring containment. -/
def containsSub (p : Str) : Str → Bool
  | [] => List.isPrefixOf p []
  | c :: rest => List.isPrefixOf p (c :: rest) || containsSub p rest

/-- `fqdn[fqdn.index("://") + 3:]` — strip through the first `://`. -/
def stripProtocol : Str → Str
  | [] => []
  | c :: rest =>
    if List.isPrefixOf (pstr ("://")) (c :: rest) then rest.drop 2
    else stripProtocol rest

/-- `Suffixes.parse` (suffixes.py lines 409-446).  IP check first (IPv4
then IPv6, both via `re.match`), then the optional protocol strip, then
the trie lookup; a `_SuffixInfo` match reads
`node.root_suffix.{suffix,puny,...}`, which raises `AttributeError` when
`root_suffix` is `None` or itself a `_SuffixInfo` (no `puny` attribute). -/
def Suffixes.parse (S : Suffixes) (fqdn : Str) (skip_ip_check : Bool)
    (skip_protocol_check : Bool) : Except String (Option ParsedResult) :=
  if !skip_ip_check && ipv4_match fqdn then .ok (some (ip_result fqdn true))
  else if !skip_ip_check && ipv6_match fqdn then .ok (some (ip_result fqdn false))
  else
    let fqdn2 :=
      if skip_protocol_check = false && containsSub (pstr ("://")) fqdn then
        stripProtocol fqdn
      else fqdn
    match S.suffix_trie.get_longest_sequence fqdn2 S.puny_suffixes with
    | .error e => .error e
    | .ok (.none, _) => .ok Option.none
    | .ok (.tld i, host_labels) =>
      .ok (some ⟨some i.suffix, i.puny, some i.tld_type, i.registry, i.create_date,
                 some i.suffix, some true, host_labels, false, false⟩)
    | .ok (.sfx s p rs, host_labels) =>
      match rs with
      | .tld ri =>
        .ok (some ⟨some ri.suffix, ri.puny, some ri.tld_type, ri.registry, ri.create_date,
                   some s, some p, host_labels, false, false⟩)
      | _ => .error ("AttributeError")

/-!
## Specification-side helpers (used to state the theorems)
-/

/-- The node reached from `n` by following exactly the given (reversed)
label path. -/
def nodeAtPath : Node → List Str → Option Node
  | n, [] => some n
  | n, l :: rest =>
    match lookupChild n l with
    | some c => nodeAtPath c rest
    | Option.none => Option.none

/-- Metadata at a reversed-label path of a trie. -/
def pathMetadata (t : Trie) (p : List Str) : Option Metadata :=
  (nodeAtPath t.root p).map Node.metadata

/-- Whether the node at a path has a child for a further label. -/
def pathHasChild (t : Trie) (p : List Str) (l : Str) : Bool :=
  match nodeAtPath t.root p with
  | some n => (lookupChild n l).isSome
  | Option.none => false

/-- No node visited by the greedy child-following walk over `labels`
carries metadata. -/
def noSuffixOnWalk : Node → List Str → Bool
  | _, [] => true
  | n, l :: rest =>
    match lookupChild n l with
    | Option.none => true
    | some c => c.metadata.isNoneB && noSuffixOnWalk c rest

/-- Numeric value of a decimal digit character. -/
def digitVal (c : Char) : Nat := c.toNat - 48

/-- Numeric value of a decimal digit string. -/
def octetVal (s : Str) : Nat := s.foldl (fun acc c => acc * 10 + digitVal c) 0

/-- Run an insert that is expected to succeed (test-fixture builder). -/
def insOk (t : Trie) (s : Str) (md : Metadata) (p : Option Bool) : Trie :=
  match t.insert s md p with
  | .ok u => u
  | .error _ => t

/-- Test fixture: the "uk" TLD record. -/
def ukInfo : TLDInfo :=
  ⟨pstr ("uk"), Option.none, pstr ("country-code"),
   some (pstr ("Nominet UK")), some (pstr ("1985-07-24"))⟩

/-- Test fixture: the "com" TLD record. -/
def comInfo : TLDInfo :=
  ⟨pstr ("com"), Option.none, pstr ("generic"),
   some (pstr ("VeriSign Global Registry Services")), some (pstr ("1985-01-01"))⟩

/-- Fixture: registry trie holding the TLD "uk" and the public suffix
"co.uk" (a nested-suffix pair). -/
def trieUkCo : Trie :=
  insOk (insOk Trie.empty (pstr ("uk")) (.tld ukInfo) Option.none)
    (pstr ("co.uk")) .none (some true)

/-- Fixture: registry trie holding the TLD "uk" and the public suffix
"ac.gov.uk", which creates a metadata-less intermediate node "gov". -/
def trieUkGov : Trie :=
  insOk (insOk Trie.empty (pstr ("uk")) (.tld ukInfo) Option.none)
    (pstr ("ac.gov.uk")) .none (some true)

/-- Fixture: registry trie holding just the TLD "com". -/
def trieCom : Trie := insOk Trie.empty (pstr ("com")) (.tld comInfo) Option.none

/-! ## Lemmas: splitting -/

theorem splitDot_ne_nil (s : Str) : splitDot s ≠ [] := by
  cases s with
  | nil => simp [splitDot]
  | cons c rest =>
    simp only [splitDot]
    cases h : splitDot rest with
    | nil => simp
    | cons a t =>
      by_cases hc : c = '.' <;> simp [hc]

theorem splitDot_append (l s : Str) (h : ¬ ('.' ∈ l)) :
    splitDot (l ++ '.' :: s) = l :: splitDot s := by
  induction l with
  | nil =>
    simp only [List.nil_append, splitDot]
    cases hs : splitDot s with
    | nil => exact absurd hs (splitDot_ne_nil s)
    | cons a t => simp
  | cons c cs ih =>
    have hc : ¬ (c = '.') := by
      intro he
      exact h (by simp [he])
    have hcs : ¬ ('.' ∈ cs) := by
      intro hm
      exact h (by simp [hm])
    simp only [List.cons_append, splitDot, List.append_eq]
    rw [ih hcs]
    simp [hc]

theorem splitDot_no_dot (s : Str) (h : ¬ ('.' ∈ s)) : splitDot s = [s] := by
  induction s with
  | nil => simp [splitDot]
  | cons c cs ih =>
    have hc : ¬ (c = '.') := by
      intro he
      exact h (by simp [he])
    have hcs : ¬ ('.' ∈ cs) := by
      intro hm
      exact h (by simp [hm])
    simp only [splitDot]
    rw [ih hcs]
    simp [hc]

theorem splitDot_length_two (s : Str) (h : '.' ∈ s) : 2 ≤ (splitDot s).length := by
  induction s with
  | nil => simp at h
  | cons c cs ih =>
    simp only [splitDot]
    cases hs : splitDot cs with
    | nil => exact absurd hs (splitDot_ne_nil cs)
    | cons a t =>
      by_cases hc : c = '.'
      · simp [hc]
      · have hm : '.' ∈ cs := by
          rcases List.mem_cons.mp h with h1 | h2
          · exact absurd h1.symm hc
          · exact h2
        have := ih hm
        rw [hs] at this
        simp [hc]
        simpa using this

/-! ## Lemmas: the trie walk -/

theorem walkLoop_miss (n : Node) (x : Str) (r : List Str) (i : Nat)
    (h : lookupChild n x = Option.none) : walkLoop n (x :: r) i = (n, i) := by
  rw [walkLoop, h]

theorem walkLoop_hit_last (n c : Node) (l : Str) (i : Nat)
    (h : lookupChild n l = some c) : walkLoop n [l] i = (c, i) := by
  rw [walkLoop, h]

theorem walkLoop_hit (n c : Node) (l q : Str) (qs : List Str) (i : Nat)
    (h : lookupChild n l = some c) :
    walkLoop n (l :: q :: qs) i = walkLoop c (q :: qs) (i + 1) := by
  rw [walkLoop, h]

theorem walkLoop_path (p : List Str) (n m : Node) (x : Str) (r : List Str) (i : Nat)
    (hp : nodeAtPath n p = some m) (hx : lookupChild m x = Option.none) (hne : p ≠ []) :
    walkLoop n (p ++ x :: r) i = (m, i + p.length) := by
  induction p generalizing n i with
  | nil => exact absurd rfl hne
  | cons l p' ih =>
    cases hc : lookupChild n l with
    | none => simp [nodeAtPath, hc] at hp
    | some c =>
      simp only [nodeAtPath, hc] at hp
      cases p' with
      | nil =>
        simp only [nodeAtPath, Option.some_inj] at hp
        rw [← hp] at hx
        simp only [List.cons_append, List.nil_append]
        rw [walkLoop_hit n c l x r i hc, walkLoop_miss c x r (i + 1) hx, hp]
        simp
      | cons q qs =>
        have step := ih c (i + 1) hp (by simp)
        simp only [List.cons_append] at step ⊢
        rw [walkLoop_hit n c l q (qs ++ x :: r) i hc, step]
        simp only [List.length_cons, Prod.mk.injEq]
        exact ⟨trivial, by omega⟩

theorem walkLoop_all (p : List Str) (n m : Node) (i : Nat)
    (hp : nodeAtPath n p = some m) (hne : p ≠ []) :
    walkLoop n p i = (m, i + p.length - 1) := by
  induction p generalizing n i with
  | nil => exact absurd rfl hne
  | cons l p' ih =>
    cases hc : lookupChild n l with
    | none => simp [nodeAtPath, hc] at hp
    | some c =>
      simp only [nodeAtPath, hc] at hp
      cases p' with
      | nil =>
        simp only [nodeAtPath, Option.some_inj] at hp
        rw [walkLoop_hit_last n c l i hc, hp]
        simp
      | cons q qs =>
        have step := ih c (i + 1) hp (by simp)
        rw [walkLoop_hit n c l q qs i hc, step]
        simp only [List.length_cons, Prod.mk.injEq]
        exact ⟨trivial, by omega⟩

theorem noSuffixOnWalk_final (ls : List Str) (n : Node) (i : Nat)
    (hroot : n.metadata = .none) (hw : noSuffixOnWalk n ls = true) :
    ((walkLoop n ls i).1).metadata = .none := by
  induction ls generalizing n i with
  | nil => rw [walkLoop]; exact hroot
  | cons l rest ih =>
    rw [noSuffixOnWalk] at hw
    cases hc : lookupChild n l with
    | none => rw [walkLoop_miss n l rest i hc]; exact hroot
    | some c =>
      rw [hc] at hw
      simp only [Bool.and_eq_true] at hw
      have hcm : c.metadata = .none := by
        cases hcc : c.metadata
        · rfl
        · rw [Metadata.isNoneB.eq_def, hcc] at hw; exact absurd hw.1 (by simp)
        · rw [Metadata.isNoneB.eq_def, hcc] at hw; exact absurd hw.1 (by simp)
      cases rest with
      | nil => rw [walkLoop_hit_last n c l i hc]; exact hcm
      | cons q qs =>
        rw [walkLoop_hit n c l q qs i hc]
        exact ih c (i + 1) hcm hw.2

/-! ## Lemmas: `get_longest_sequence` unfolding -/

theorem gls_eq_of_rev (t : Trie) (f : Str) (puny : List (Str × Str)) (l0 : Str)
    (rest : List Str) (hrev : (splitDot f).reverse = l0 :: rest)
    (hpuny : isPunyCode l0 = false) :
    t.get_longest_sequence f puny =
      .ok ((walkLoop t.root (l0 :: rest) 0).1.metadata,
        if (walkLoop t.root (l0 :: rest) 0).2 = 0 then []
        else (splitDot f).take ((splitDot f).length - (walkLoop t.root (l0 :: rest) 0).2)) := by
  simp [Trie.get_longest_sequence, hrev, hpuny]

theorem gls_keyError (t : Trie) (f : Str) (puny : List (Str × Str)) (l0 : Str)
    (rest : List Str) (hrev : (splitDot f).reverse = l0 :: rest)
    (hpuny : isPunyCode l0 = true) (hl : plookup puny l0 = Option.none) :
    t.get_longest_sequence f puny = .error ("KeyError") := by
  simp [Trie.get_longest_sequence, hrev, hpuny, hl]

/-! ## Lemmas: insertion -/

theorem assocFind_setChild_self (ch : List (Str × Node)) (l : Str) (c : Node) :
    assocFind (setChild ch l c) l = some c := by
  induction ch with
  | nil => simp [setChild, assocFind]
  | cons p rest ih =>
    obtain ⟨k, v⟩ := p
    by_cases hk : k = l
    · simp [setChild, hk, assocFind]
    · simp [setChild, hk, assocFind, ih]

theorem setChild_setChild (ch : List (Str × Node)) (l : Str) (a b : Node) :
    setChild (setChild ch l a) l b = setChild ch l b := by
  induction ch with
  | nil => simp [setChild]
  | cons p rest ih =>
    obtain ⟨k, v⟩ := p
    by_cases hk : k = l
    · simp [setChild, hk]
    · simp [setChild, hk, ih]

theorem set_metadata_metadata (n : Node) (md : Metadata) :
    (n.set_metadata md).metadata = md := by
  cases n with
  | mk l e c t s m => cases md <;> rfl

theorem set_metadata_idem (n : Node) (md : Metadata) :
    (n.set_metadata md).set_metadata md = n.set_metadata md := by
  cases n with
  | mk l e c t s m => cases md <;> rfl

theorem insertAux_nil (n : Node) (md : Metadata) :
    insertAux n [] md = n.set_metadata md := by
  cases n with
  | mk l e c t s m => rfl

theorem insertAux_metadata (n : Node) (a : Str) (b : List Str) (md : Metadata) :
    (insertAux n (a :: b) md).metadata = n.metadata := by
  cases n with
  | mk l e ch t s m =>
    cases h : assocFind ch a <;> simp [insertAux, h, Node.metadata]

theorem insertAux_idem (ls : List Str) (n : Node) (md : Metadata) :
    insertAux (insertAux n ls md) ls md = insertAux n ls md := by
  induction ls generalizing n with
  | nil => rw [insertAux_nil, insertAux_nil, set_metadata_idem]
  | cons l rest ih =>
    cases n with
    | mk lb e ch t s m =>
      cases h : assocFind ch l with
      | some c =>
        simp only [insertAux, h, assocFind_setChild_self]
        rw [ih c, setChild_setChild]
      | none =>
        simp only [insertAux, h, assocFind_setChild_self]
        rw [ih (newNode l), setChild_setChild]

theorem nodeAtPath_insertAux (ls : List Str) (n : Node) (md : Metadata) :
    ∃ m : Node, nodeAtPath (insertAux n ls md) ls = some m ∧ m.metadata = md := by
  induction ls generalizing n with
  | nil => exact ⟨n.set_metadata md, by rw [insertAux_nil, nodeAtPath], set_metadata_metadata n md⟩
  | cons l rest ih =>
    cases n with
    | mk lb e ch t s m =>
      cases h : assocFind ch l with
      | some c =>
        obtain ⟨mm, h1, h2⟩ := ih c
        refine ⟨mm, ?_, h2⟩
        simp only [insertAux, h, nodeAtPath, lookupChild, Node.children,
          assocFind_setChild_self]
        exact h1
      | none =>
        obtain ⟨mm, h1, h2⟩ := ih (newNode l)
        refine ⟨mm, ?_, h2⟩
        simp only [insertAux, h, nodeAtPath, lookupChild, Node.children,
          assocFind_setChild_self]
        exact h1

theorem firstNodeMetadata_insertAux (n : Node) (l : Str) (rest rest2 : List Str)
    (md : Metadata) (hne : rest ≠ []) :
    firstNodeMetadata (insertAux n (l :: rest) md) (l :: rest2) =
      firstNodeMetadata n (l :: rest2) := by
  cases n with
  | mk lb e ch t s m =>
    cases rest with
    | nil => exact absurd rfl hne
    | cons a b =>
      cases h : assocFind ch l with
      | some c =>
        simp only [insertAux, h, firstNodeMetadata, lookupChild, Node.children,
          assocFind_setChild_self]
        rw [insertAux_metadata]
      | none =>
        simp only [insertAux, h, firstNodeMetadata, lookupChild, Node.children,
          assocFind_setChild_self]
        simp [assocFind, Node.metadata, newNode]

/-! ## Lemmas: `get_longest_sequence` on a walk that breaks after a path -/

theorem gls_break (t : Trie) (f : Str) (puny : List (Str × Str)) (l0 : Str)
    (p : List Str) (x : Str) (r : List Str) (n : Node)
    (hrev : (splitDot f).reverse = (l0 :: p) ++ x :: r)
    (hpuny : isPunyCode l0 = false)
    (hn : nodeAtPath t.root (l0 :: p) = some n)
    (hx : lookupChild n x = Option.none) :
    t.get_longest_sequence f puny = .ok (n.metadata, (x :: r).reverse) := by
  have hrev2 : (splitDot f).reverse = l0 :: (p ++ x :: r) := by simpa using hrev
  have hw := walkLoop_path (l0 :: p) t.root n x r 0 hn hx (by simp)
  have hsplit : splitDot f = (x :: r).reverse ++ (l0 :: p).reverse := by
    have h2 := congrArg List.reverse hrev
    simpa [List.reverse_append] using h2
  rw [gls_eq_of_rev t f puny l0 (p ++ x :: r) hrev2 hpuny]
  have hw2 : walkLoop t.root (l0 :: (p ++ x :: r)) 0 = (n, (l0 :: p).length) := by
    simpa using hw
  rw [hw2]
  simp only [List.length_cons]
  have hlen : (splitDot f).length - (p.length + 1) = (x :: r).reverse.length := by
    rw [hsplit]
    simp
    omega
  rw [hlen, hsplit]
  simp only [List.take_left, if_neg (Nat.succ_ne_zero p.length)]

/-! ## Claim C1: unknown punycode TLD -/

/-- C1 (amended): for every query whose rightmost label starts with the
punycode marker "xn--" but is absent from the punycode reverse index,
`get_longest_sequence` raises `KeyError` (the Python subscript
`puny_suffixes[rev_labels[0]]` on a missing key) instead of leaving the
label unchanged and returning a non-match; `get_tld` propagates the
exception, and so does `parse` whenever the input matches neither IP
pattern. -/
theorem C1_theorem (t : Trie) (puny : List (Str × Str)) (f l0 : Str) (rest : List Str)
    (hrev : (splitDot f).reverse = l0 :: rest)
    (hp : isPunyCode l0 = true)
    (hl : plookup puny l0 = Option.none) :
    t.get_longest_sequence f puny = .error ("KeyError") ∧
    (Suffixes.mk t puny).get_tld f = .error ("KeyError") ∧
    (ipv4_match f = false → ipv6_match f = false →
      (Suffixes.mk t puny).parse f false true = .error ("KeyError")) := by
  have hg := gls_keyError t f puny l0 rest hrev hp hl
  refine ⟨hg, ?_, ?_⟩
  · simp [Suffixes.get_tld, hg]
  · intro h4 h6
    simp [Suffixes.parse, h4, h6, hg]

/-- C1 witness: a concrete unknown-punycode query on the "com" registry. -/
theorem C1_witness :
    trieCom.get_longest_sequence (pstr ("foo.xn--zzz")) [] = .error ("KeyError") ∧
    (Suffixes.mk trieCom []).get_tld (pstr ("foo.xn--zzz")) = .error ("KeyError") ∧
    (Suffixes.mk trieCom []).parse (pstr ("foo.xn--zzz")) false true = .error ("KeyError") := by
  have h := C1_theorem trieCom [] (pstr ("foo.xn--zzz")) (pstr ("xn--zzz")) [pstr ("foo")]
    (by decide) (by decide) (by decide)
  exact ⟨h.1, h.2.1, h.2.2 (by decide) (by decide)⟩

/-- C1 counterexample: the claim as stated is false — with the rightmost
label "xn--abc" absent from the (empty) punycode index, the lookup raises
`KeyError` (an exception), rather than leaving the label unchanged and
returning a normal not-found result. -/
theorem C1_counterexample :
    Trie.empty.get_longest_sequence (pstr ("stuff.xn--abc")) [] = .error ("KeyError") ∧
    (Suffixes.mk Trie.empty []).get_tld (pstr ("stuff.xn--abc")) = .error ("KeyError") ∧
    (Suffixes.mk Trie.empty []).parse (pstr ("stuff.xn--abc")) false true
      = .error ("KeyError") := by
  refine ⟨by rfl, by rfl, by rfl⟩

/-! ## Claim C2: longest match resolves to the final node of the walk -/

/-- C2 (amended): the match is the metadata of the **final** node of the
right-to-left walk.  In particular, for nested registered suffixes — a
metadata-bearing node at depth `(l0 :: p).length` (S1) and a deeper
metadata-bearing node at depth `(l0 :: p ++ q).length` (S2) — a query
whose walk stops exactly at S2's node resolves to S2's metadata, never
S1's.  (The part of the original claim about a walk that ends on a
metadata-less node resolving to the deepest metadata-bearing *ancestor*
is refuted by the counterexample: the code returns the final node's
metadata, `None` included.) -/
theorem C2_theorem (t : Trie) (puny : List (Str × Str)) (f l0 : Str)
    (p q : List Str) (x : Str) (r : List Str) (n : Node)
    (hrev : (splitDot f).reverse = (l0 :: (p ++ q)) ++ x :: r)
    (hq : q ≠ [])
    (hn : nodeAtPath t.root (l0 :: (p ++ q)) = some n)
    (hmd : n.metadata.isNoneB = false)
    (hx : lookupChild n x = Option.none)
    (hpuny : isPunyCode l0 = false) :
    t.get_longest_sequence f puny = .ok (n.metadata, (x :: r).reverse) :=
  gls_break t f puny l0 (p ++ q) x r n hrev hpuny hn hx

/-- C2 witness: on the {uk, co.uk} registry, "foo.co.uk" resolves to the
deeper suffix "co.uk", never to "uk". -/
theorem C2_witness :
    trieUkCo.get_longest_sequence (pstr ("foo.co.uk")) [] =
      .ok (.sfx (pstr ("co.uk")) true (.tld ukInfo), [pstr ("foo")]) := by
  have h := C2_theorem trieUkCo [] (pstr ("foo.co.uk")) (pstr ("uk")) [] [pstr ("co")]
    (pstr ("foo")) []
    (Node.mk (pstr ("co")) true [] false true (.sfx (pstr ("co.uk")) true (.tld ukInfo)))
    (by rfl) (by decide) (by rfl) (by rfl) (by rfl) (by rfl)
  simpa using h

/-- C2 counterexample: on the {uk, ac.gov.uk} registry the walk for
"foo.gov.uk" ends on the metadata-less intermediate node "gov", and the
result is a non-match (`None`) — NOT the metadata of the deepest
metadata-bearing ancestor "uk", which the second conjunct shows exists. -/
theorem C2_counterexample :
    trieUkGov.get_longest_sequence (pstr ("foo.gov.uk")) [] = .ok (.none, [pstr ("foo")]) ∧
    pathMetadata trieUkGov [pstr ("uk")] = some (.tld ukInfo) := by
  refine ⟨by rfl, by rfl⟩

/-! ## Claim C3: the residual labels -/

/-- C3 (amended): when the walk consumes a non-empty proper prefix of the
reversed labels — it reaches the node at path `l0 :: p` and stops on label
`x` — the returned residual is exactly `(x :: r).reverse`, the unconsumed
labels of the input in their original left-to-right order (the second
conjunct locates them as the left part of the split).  (The boundary cases
— zero labels consumed, or every label of a multi-label input consumed —
do NOT return the unconsumed labels; see the counterexample.) -/
theorem C3_theorem (t : Trie) (puny : List (Str × Str)) (f l0 : Str)
    (p : List Str) (x : Str) (r : List Str) (n : Node)
    (hrev : (splitDot f).reverse = (l0 :: p) ++ x :: r)
    (hn : nodeAtPath t.root (l0 :: p) = some n)
    (hx : lookupChild n x = Option.none)
    (hpuny : isPunyCode l0 = false) :
    t.get_longest_sequence f puny = .ok (n.metadata, (x :: r).reverse) ∧
    splitDot f = (x :: r).reverse ++ (l0 :: p).reverse := by
  constructor
  · exact gls_break t f puny l0 p x r n hrev hpuny hn hx
  · have h2 := congrArg List.reverse hrev
    simpa [List.reverse_append] using h2

/-- C3 witness: for "a.b.co.uk" on the {uk, co.uk} registry the walk
consumes "uk" and "co" and the residual is exactly ["a", "b"]. -/
theorem C3_witness :
    trieUkCo.get_longest_sequence (pstr ("a.b.co.uk")) [] =
      .ok (.sfx (pstr ("co.uk")) true (.tld ukInfo), [pstr ("a"), pstr ("b")]) ∧
    splitDot (pstr ("a.b.co.uk")) =
      [pstr ("a"), pstr ("b")] ++ [pstr ("co"), pstr ("uk")] := by
  have h := C3_theorem trieUkCo [] (pstr ("a.b.co.uk")) (pstr ("uk")) [pstr ("co")]
    (pstr ("b")) [pstr ("a")]
    (Node.mk (pstr ("co")) true [] false true (.sfx (pstr ("co.uk")) true (.tld ukInfo)))
    (by rfl) (by rfl) (by rfl) (by rfl)
  simpa using h

/-- C3 counterexample: the boundary cases are off.  When every label of
the multi-label input "co.uk" matches, the residual is ["co"] instead of
the empty list; when zero labels match ("x.y"), the residual is [] even
though both input labels were left unconsumed. -/
theorem C3_counterexample :
    trieUkCo.get_longest_sequence (pstr ("co.uk")) [] =
      .ok (.sfx (pstr ("co.uk")) true (.tld ukInfo), [pstr ("co")]) ∧
    trieUkCo.get_longest_sequence (pstr ("x.y")) [] = .ok (.none, []) := by
  refine ⟨by rfl, by rfl⟩

/-! ## Claim C8: one extra label on a registered suffix -/

/-- C8 (amended): for a suffix `S` present in the trie with metadata whose
suffix field is `S`, and a single dot-free extra label that is **not** a
child of `S`'s final node (i.e. `lab + "." + S` does not extend a longer
registered path), `get_tld (lab + "." + S)` returns `S` — provided the
rightmost label of `S` is not ACE-encoded.  (Without the no-deeper-child
proviso the original universally-quantified claim is false; see the
counterexample.) -/
theorem C8_theorem (t : Trie) (puny : List (Str × Str)) (S lab l0 : Str)
    (p : List Str) (n : Node)
    (hS : (splitDot S).reverse = l0 :: p)
    (hdot : ¬ ('.' ∈ lab))
    (hpuny : isPunyCode l0 = false)
    (hn : nodeAtPath t.root (l0 :: p) = some n)
    (hsuf : mdSuffix n.metadata = some S)
    (hx : lookupChild n lab = Option.none) :
    (Suffixes.mk t puny).get_tld (lab ++ '.' :: S) = .ok (some S) := by
  have hsp : splitDot (lab ++ '.' :: S) = lab :: splitDot S := splitDot_append lab S hdot
  have hrev : (splitDot (lab ++ '.' :: S)).reverse = (l0 :: p) ++ lab :: [] := by
    rw [hsp]
    simp [hS]
  have hg := gls_break t (lab ++ '.' :: S) puny l0 p lab [] n hrev hpuny hn hx
  simp [Suffixes.get_tld, hg, hsuf]

/-- C8 witness: `get_tld ("stuff" + "." + "uk")` returns "uk" on the
{uk, co.uk} registry. -/
theorem C8_witness :
    (Suffixes.mk trieUkCo []).get_tld (pstr ("stuff") ++ '.' :: pstr ("uk")) =
      .ok (some (pstr ("uk"))) := by
  exact C8_theorem trieUkCo [] (pstr ("uk")) (pstr ("stuff")) (pstr ("uk")) []
    (Node.mk (pstr ("uk")) false
      [(pstr ("co"),
        Node.mk (pstr ("co")) true [] false true (.sfx (pstr ("co.uk")) true (.tld ukInfo)))]
      true false (.tld ukInfo))
    (by rfl) (by decide) (by rfl) (by rfl) (by rfl) (by rfl)

/-- C8 counterexample: the claim quantifies over *every* single extra
label, but with S = "uk" (inserted as a TLDRecord, first conjunct) and the
extra label "co", `get_tld ("co.uk")` returns "co.uk", not "uk". -/
theorem C8_counterexample :
    pathMetadata trieUkCo [pstr ("uk")] = some (.tld ukInfo) ∧
    (Suffixes.mk trieUkCo []).get_tld (pstr ("co") ++ '.' :: pstr ("uk")) =
      .ok (some (pstr ("co.uk"))) ∧
    pstr ("co.uk") ≠ pstr ("uk") := by
  refine ⟨by rfl, by rfl, by decide⟩

/-! ## Claim C4: public-suffix insert and the owning TLD record -/

/-- C4 (amended): an `insert` with `is_public_suffix` provided never fails
when the first node on the path lacks a `TLDRecord`: the Python
`assert tld_info is not None` only checks that the label path is non-empty
(always true), NOT that the first-reached node carries a `TLDRecord`.  The
insert always succeeds and attaches a `SuffixRecord` whose owning
reference is whatever the first-reached node's metadata was — `None`
included. -/
theorem C4_theorem (t : Trie) (s : Str) (b : Bool) :
    ∃ u : Trie, t.insert s .none (some b) = .ok u ∧
      ∃ n : Node, nodeAtPath u.root ((splitDot s).reverse) = some n ∧
        n.metadata = .sfx s b (firstNodeMetadata t.root ((splitDot s).reverse)) := by
  have hne : (splitDot s).reverse ≠ [] := by
    simp [splitDot_ne_nil s]
  have hne2 : ((splitDot s).reverse).isEmpty = false := by
    cases h : (splitDot s).reverse with
    | nil => exact absurd h hne
    | cons a l => rfl
  obtain ⟨n, h1, h2⟩ := nodeAtPath_insertAux ((splitDot s).reverse) t.root
    (.sfx s b (firstNodeMetadata t.root ((splitDot s).reverse)))
  refine ⟨⟨insertAux t.root ((splitDot s).reverse)
    (.sfx s b (firstNodeMetadata t.root ((splitDot s).reverse)))⟩, ?_, n, h1, h2⟩
  simp [Trie.insert, hne2]

/-- C4 counterexample: inserting "foo.bar" as a public suffix into an
EMPTY trie — where the TLD-level node "bar" carries no `TLDRecord` —
succeeds (no invariant violation is raised) and attaches a `SuffixRecord`
whose owning-TLD reference is `None`, exactly what the claim says cannot
happen. -/
theorem C4_counterexample :
    (Trie.empty.insert (pstr ("foo.bar")) .none (some true)).toOption.map
      (fun u => pathMetadata u [pstr ("bar"), pstr ("foo")]) =
    some (some (.sfx (pstr ("foo.bar")) true .none)) := by rfl

/-! ## Claim C9: idempotence of re-insertion -/

theorem insert_direct_eq (t : Trie) (s : Str) (m : Metadata) :
    t.insert s m Option.none = .ok ⟨insertAux t.root ((splitDot s).reverse) m⟩ := rfl

theorem insert_public_eq (t : Trie) (s : Str) (b : Bool) (l : Str) (rest : List Str)
    (hL : (splitDot s).reverse = l :: rest) :
    t.insert s .none (some b) =
      .ok ⟨insertAux t.root (l :: rest) (.sfx s b (firstNodeMetadata t.root (l :: rest)))⟩ := by
  simp [Trie.insert, hL]

/-- C9 (amended): re-inserting ANY suffix (single- or multi-label) with
the same direct metadata is idempotent (the resulting trie is unchanged as
a value, so `get_node`, `get_longest_sequence` and `get_tld` are all
unchanged); re-inserting the same **multi-label** suffix as a
public/private suffix is likewise idempotent.  (For a single-label
public-suffix re-insert the new `SuffixRecord` captures the previous
record as its owning reference, changing the stored metadata; see the
counterexample.) -/
theorem C9_theorem (t : Trie) (s : Str) (m : Metadata) (b : Bool) :
    ((t.insert s m Option.none).bind (fun u => u.insert s m Option.none) =
      t.insert s m Option.none) ∧
    ('.' ∈ s →
      (t.insert s .none (some b)).bind (fun u => u.insert s .none (some b)) =
        t.insert s .none (some b)) := by
  constructor
  · rw [insert_direct_eq t s m]
    show Except.bind _ _ = _
    simp only [Except.bind]
    rw [insert_direct_eq]
    dsimp only
    rw [insertAux_idem]
  · intro hdot
    have hlen := splitDot_length_two s hdot
    have hlen2 : 2 ≤ ((splitDot s).reverse).length := by simpa using hlen
    obtain ⟨l, rest, hL⟩ : ∃ l rest, (splitDot s).reverse = l :: rest := by
      cases h : (splitDot s).reverse with
      | nil => rw [h] at hlen2; simp at hlen2
      | cons a r => exact ⟨a, r, rfl⟩
    have hrest : rest ≠ [] := by
      rw [hL] at hlen2
      cases rest with
      | nil => simp at hlen2
      | cons x xs => simp
    rw [insert_public_eq t s b l rest hL]
    show Except.bind _ _ = _
    simp only [Except.bind]
    rw [insert_public_eq _ s b l rest hL]
    dsimp only
    rw [firstNodeMetadata_insertAux t.root l rest rest _ hrest]
    rw [insertAux_idem]

/-- C9 witness: direct-metadata idempotence at the single-label TLD "uk"
(a raw TLD insert) and at the multi-label "co.uk", and public-suffix
idempotence at the multi-label "co.uk". -/
theorem C9_witness :
    ((Trie.empty.insert (pstr ("uk")) (.tld ukInfo) Option.none).bind
        (fun u => u.insert (pstr ("uk")) (.tld ukInfo) Option.none) =
      Trie.empty.insert (pstr ("uk")) (.tld ukInfo) Option.none) ∧
    ((Trie.empty.insert (pstr ("co.uk")) (.tld ukInfo) Option.none).bind
        (fun u => u.insert (pstr ("co.uk")) (.tld ukInfo) Option.none) =
      Trie.empty.insert (pstr ("co.uk")) (.tld ukInfo) Option.none) ∧
    ((Trie.empty.insert (pstr ("co.uk")) .none (some true)).bind
        (fun u => u.insert (pstr ("co.uk")) .none (some true)) =
      Trie.empty.insert (pstr ("co.uk")) .none (some true)) :=
  ⟨(C9_theorem Trie.empty (pstr ("uk")) (.tld ukInfo) true).1,
   (C9_theorem Trie.empty (pstr ("co.uk")) (.tld ukInfo) true).1,
   (C9_theorem Trie.empty (pstr ("co.uk")) (.tld ukInfo) true).2 (by decide)⟩

/-- C9 counterexample: re-inserting the single-label suffix "uk" as a
public suffix changes the metadata stored at its node (the second insert
nests the first `SuffixRecord` as the owning reference of the new one), so
a subsequent `get_longest_sequence` lookup returns a different result than
after the first insert. -/
theorem C9_counterexample :
    ((Trie.empty.insert (pstr ("uk")) .none (some true)).bind
        (fun u => u.insert (pstr ("uk")) .none (some true))).map
      (fun u => u.get_longest_sequence (pstr ("uk")) []) ≠
    (Trie.empty.insert (pstr ("uk")) .none (some true)).map
      (fun u => u.get_longest_sequence (pstr ("uk")) []) := by decide

/-! ## Claim C6: query-time non-match is a normal not-found -/

/-- C6 (confirmed): for a host whose rightmost label is not
punycode-prefixed and whose greedy right-to-left walk meets no
metadata-bearing node (it matches no suffix in the registry), `get_tld`
returns `.ok None` and `parse` returns `.ok None` — explicit not-found
values, never an exception.  (The `parse` conjunct additionally assumes
the host matches neither IP-literal pattern, i.e. it actually reaches the
trie lookup.) -/
theorem C6_theorem (t : Trie) (puny : List (Str × Str)) (f l0 : Str) (rest : List Str)
    (hrev : (splitDot f).reverse = l0 :: rest)
    (hpuny : isPunyCode l0 = false)
    (hroot : t.root.metadata = .none)
    (hwalk : noSuffixOnWalk t.root (l0 :: rest) = true)
    (h4 : ipv4_match f = false) (h6 : ipv6_match f = false) :
    (Suffixes.mk t puny).get_tld f = .ok Option.none ∧
    (Suffixes.mk t puny).parse f false true = .ok Option.none := by
  have hfin := noSuffixOnWalk_final (l0 :: rest) t.root 0 hroot hwalk
  have hg := gls_eq_of_rev t f puny l0 rest hrev hpuny
  rw [hfin] at hg
  constructor
  · simp [Suffixes.get_tld, hg, mdSuffix]
  · simp [Suffixes.parse, h4, h6, hg]

/-- C6 witness: `get_tld ("stuff.nottld")` and `parse ("stuff.nottld")`
are not-found on the "com" registry. -/
theorem C6_witness :
    (Suffixes.mk trieCom []).get_tld (pstr ("stuff.nottld")) = .ok Option.none ∧
    (Suffixes.mk trieCom []).parse (pstr ("stuff.nottld")) false true = .ok Option.none :=
  C6_theorem trieCom [] (pstr ("stuff.nottld")) (pstr ("nottld")) [pstr ("stuff")]
    (by rfl) (by rfl) (by rfl) (by rfl) (by rfl) (by rfl)

/-! ## Claim C10: single-TLD input and the registrable-domain properties -/

/-- C10 (confirmed): for an input that is exactly one registered TLD label
(not punycode-prefixed, not an IP literal), `parse` returns a
`ParsedResult` whose `host_labels` is the EMPTY list, and on that result
the derived properties `registrable_domain` and `registrable_domain_host`
index `host_labels[-1]` out of bounds (`IndexError`): they are not total
at the public interface. -/
theorem C10_theorem (t : Trie) (puny : List (Str × Str)) (s : Str) (i : TLDInfo)
    (hdot : ¬ ('.' ∈ s))
    (hpuny : isPunyCode s = false)
    (hmd : pathMetadata t [s] = some (.tld i))
    (h4 : ipv4_match s = false) (h6 : ipv6_match s = false) :
    (Suffixes.mk t puny).parse s false true =
      .ok (some (ParsedResult.mk (some i.suffix) i.puny (some i.tld_type) i.registry
        i.create_date (some i.suffix) (some true) [] false false)) ∧
    (ParsedResult.mk (some i.suffix) i.puny (some i.tld_type) i.registry i.create_date
      (some i.suffix) (some true) [] false false).registrable_domain =
        .error ("IndexError") ∧
    (ParsedResult.mk (some i.suffix) i.puny (some i.tld_type) i.registry i.create_date
      (some i.suffix) (some true) [] false false).registrable_domain_host =
        .error ("IndexError") := by
  obtain ⟨n, hn, hmeta⟩ := Option.map_eq_some'.mp hmd
  have hsp : splitDot s = [s] := splitDot_no_dot s hdot
  have hrev : (splitDot s).reverse = s :: [] := by rw [hsp]; rfl
  have hlc : lookupChild t.root s = some n := by
    cases hc : lookupChild t.root s with
    | none => simp [nodeAtPath, hc] at hn
    | some c =>
      simp only [nodeAtPath, hc, Option.some_inj] at hn
      rw [hn]
  have hw : walkLoop t.root [s] 0 = (n, 0) := walkLoop_hit_last t.root n s 0 hlc
  have hg := gls_eq_of_rev t s puny s [] hrev hpuny
  rw [hw] at hg
  simp only [if_pos rfl] at hg
  rw [hmeta] at hg
  refine ⟨?_, by rfl, by rfl⟩
  simp [Suffixes.parse, h4, h6, hg]

/-- C10 witness: `parse ("com")` on the "com" registry yields an empty
`host_labels` and `IndexError` from both derived properties. -/
theorem C10_witness :
    (Suffixes.mk trieCom []).parse (pstr ("com")) false true =
      .ok (some (ParsedResult.mk (some comInfo.suffix) comInfo.puny (some comInfo.tld_type)
        comInfo.registry comInfo.create_date (some comInfo.suffix) (some true)
        [] false false)) ∧
    (ParsedResult.mk (some comInfo.suffix) comInfo.puny (some comInfo.tld_type)
      comInfo.registry comInfo.create_date (some comInfo.suffix) (some true)
      [] false false).registrable_domain = .error ("IndexError") ∧
    (ParsedResult.mk (some comInfo.suffix) comInfo.puny (some comInfo.tld_type)
      comInfo.registry comInfo.create_date (some comInfo.suffix) (some true)
      [] false false).registrable_domain_host = .error ("IndexError") :=
  C10_theorem trieCom [] (pstr ("com")) comInfo
    (by decide) (by rfl) (by rfl) (by rfl) (by rfl)

/-! ## Claim C5: IP-literal detection in `parse` -/

theorem parse_trie_not_ip (S : Suffixes) (f : Str) (r : ParsedResult)
    (h4 : ipv4_match f = false) (h6 : ipv6_match f = false)
    (h : S.parse f false true = .ok (some r)) : r.is_ip = false := by
  simp [Suffixes.parse, h4, h6] at h
  cases hg : S.suffix_trie.get_longest_sequence f S.puny_suffixes with
  | error e => rw [hg] at h; exact absurd h (by simp)
  | ok pr =>
    obtain ⟨md, hl⟩ := pr
    rw [hg] at h
    cases md with
    | none => simp at h
    | tld i =>
      simp only [Except.ok.injEq, Option.some_inj] at h
      rw [← h]
      rfl
    | sfx s2 pb rs =>
      cases rs with
      | none => simp at h
      | tld ri =>
        simp only [Except.ok.injEq, Option.some_inj] at h
        rw [← h]
        rfl
      | sfx s3 pb3 rs3 => simp at h

/-- C5 (amended/corrected direction): with `skip_ip_check = false`,
`parse` returns an IP-literal result **iff** the anchored IPv4 pattern
matches the whole string up to an optional single trailing newline (the
Python `$` anchor also matches just before a final newline) OR the IPv6
pattern matches a *prefix* of it (`re.match` on the unanchored
`ipv6_pattern`) — NOT iff the entire string matches; and a string matching
neither test falls through to exactly the ordinary trie lookup (the same
result as `skip_ip_check = true`), with no separate error path. -/
theorem C5_theorem (S : Suffixes) (f : Str) :
    ((∃ r : ParsedResult, S.parse f false true = .ok (some r) ∧ r.is_ip = true) ↔
      (ipv4_match f || ipv6_match f) = true) ∧
    (ipv4_match f = true → S.parse f false true = .ok (some (ip_result f true))) ∧
    (ipv4_match f = false → ipv6_match f = true →
      S.parse f false true = .ok (some (ip_result f false))) ∧
    ((ipv4_match f || ipv6_match f) = false → S.parse f false true = S.parse f true true) := by
  cases h4 : ipv4_match f with
  | true =>
    have hp : S.parse f false true = .ok (some (ip_result f true)) := by
      simp [Suffixes.parse, h4]
    refine ⟨⟨fun _ => by simp [h4], fun _ => ⟨ip_result f true, hp, rfl⟩⟩,
      fun _ => hp, fun h4f => Bool.noConfusion h4f, fun hb => by simp [h4] at hb⟩
  | false =>
    cases h6 : ipv6_match f with
    | true =>
      have hp : S.parse f false true = .ok (some (ip_result f false)) := by
        simp [Suffixes.parse, h4, h6]
      refine ⟨⟨fun _ => by simp [h6], fun _ => ⟨ip_result f false, hp, rfl⟩⟩,
        fun h4t => Bool.noConfusion h4t, fun _ _ => hp, fun hb => by simp [h6] at hb⟩
    | false =>
      have heq : S.parse f false true = S.parse f true true := by
        simp [Suffixes.parse, h4, h6]
      refine ⟨⟨?_, fun hb => by simp [h4, h6] at hb⟩,
        fun h4t => Bool.noConfusion h4t, fun _ h6t => Bool.noConfusion h6t,
        fun _ => heq⟩
      rintro ⟨r, hr, hip⟩
      have := parse_trie_not_ip S f r h4 h6 hr
      rw [this] at hip
      exact absurd hip (by simp)

/-- C5 witness: the theorem applied at an IPv4 literal, an IPv6 literal,
and a plain host that falls through to the trie lookup. -/
theorem C5_witness :
    (Suffixes.mk Trie.empty []).parse (pstr ("1.2.3.4")) false true =
      .ok (some (ip_result (pstr ("1.2.3.4")) true)) ∧
    (Suffixes.mk Trie.empty []).parse (pstr ("::1")) false true =
      .ok (some (ip_result (pstr ("::1")) false)) ∧
    (Suffixes.mk trieUkCo []).parse (pstr ("x.uk")) false true =
      (Suffixes.mk trieUkCo []).parse (pstr ("x.uk")) true true :=
  ⟨(C5_theorem (Suffixes.mk Trie.empty []) (pstr ("1.2.3.4"))).2.1 (by rfl),
   (C5_theorem (Suffixes.mk Trie.empty []) (pstr ("::1"))).2.2.1 (by rfl) (by rfl),
   (C5_theorem (Suffixes.mk trieUkCo []) (pstr ("x.uk"))).2.2.2 (by rfl)⟩

/-- C5 counterexample, refuting "if and only if the entire string
matches" on both sides.  (1) "::x": the ENTIRE string matches neither the
IPv4 pattern nor the IPv6 pattern, yet `parse` returns an IPv6-literal
result (because `re.match` accepts the prefix "::"), and in particular
does not fall through to the trie lookup, which would have returned
not-found.  (2) a dotted quad followed by a newline: the IPv4 pattern body
does not match the entire string, yet `ipv4_pattern.match` is truthy
(Python `$` matches before the trailing newline) and `parse` returns an
IPv4-literal result instead of falling through. -/
theorem C5_counterexample :
    ipv4_match (pstr ("::x")) = false ∧
    ipv6_full_match (pstr ("::x")) = false ∧
    (Suffixes.mk Trie.empty []).parse (pstr ("::x")) false true =
      .ok (some (ip_result (pstr ("::x")) false)) ∧
    (Suffixes.mk Trie.empty []).parse (pstr ("::x")) true true = .ok Option.none ∧
    ipv4_body (pstr ("1.2.3.4") ++ [nlChar]) = false ∧
    ipv4_match (pstr ("1.2.3.4") ++ [nlChar]) = true ∧
    (Suffixes.mk Trie.empty []).parse (pstr ("1.2.3.4") ++ [nlChar]) false true =
      .ok (some (ip_result (pstr ("1.2.3.4") ++ [nlChar]) true)) := by
  refine ⟨by rfl, by rfl, by rfl, by rfl, by rfl, by rfl, by rfl⟩

/-! ## Claim C7: IPv4 literals and the private-range test -/

theorem char_toNat_eq (x y : Char) (h : x.toNat = y.toNat) : x = y := by
  have h1 := Char.ofNat_toNat x
  rw [h] at h1
  rw [← h1, Char.ofNat_toNat]

theorem char_eq_iff_toNat (x y : Char) : x = y ↔ x.toNat = y.toNat :=
  ⟨fun h => by rw [h], char_toNat_eq x y⟩

theorem digit_bounds (c : Char) (h : c.isDigit = true) :
    48 ≤ c.toNat ∧ c.toNat ≤ 57 := by
  simp [Char.isDigit] at h
  exact ⟨h.1, h.2⟩

theorem charNat_dot : ('.' : Char).toNat = 46 := rfl

theorem charNat_0 : ('0' : Char).toNat = 48 := rfl
theorem charNat_1 : ('1' : Char).toNat = 49 := rfl
theorem charNat_2 : ('2' : Char).toNat = 50 := rfl
theorem charNat_3 : ('3' : Char).toNat = 51 := rfl
theorem charNat_4 : ('4' : Char).toNat = 52 := rfl
theorem charNat_5 : ('5' : Char).toNat = 53 := rfl
theorem charNat_6 : ('6' : Char).toNat = 54 := rfl
theorem charNat_7 : ('7' : Char).toNat = 55 := rfl
theorem charNat_8 : ('8' : Char).toNat = 56 := rfl
theorem charNat_9 : ('9' : Char).toNat = 57 := rfl

theorem octet_shape (x : Str) (h : octet x = true) :
    (∃ c1, x = [c1]) ∨ (∃ c1 c2, x = [c1, c2]) ∨ (∃ c1 c2 c3, x = [c1, c2, c3]) := by
  match x with
  | [] => exact absurd h (by simp [octet])
  | [c1] => exact Or.inl ⟨c1, rfl⟩
  | [c1, c2] => exact Or.inr (Or.inl ⟨c1, c2, rfl⟩)
  | [c1, c2, c3] => exact Or.inr (Or.inr ⟨c1, c2, c3, rfl⟩)
  | c1 :: c2 :: c3 :: c4 :: tl => exact absurd h (by simp [octet])

theorem octet1_bounds (c1 : Char) (h : octet [c1] = true) :
    48 ≤ c1.toNat ∧ c1.toNat ≤ 57 := by
  simp [octet, Char.isDigit] at h
  exact ⟨h.1, h.2⟩

theorem octet2_bounds (c1 c2 : Char) (h : octet [c1, c2] = true) :
    (49 ≤ c1.toNat ∧ c1.toNat ≤ 57) ∧ (48 ≤ c2.toNat ∧ c2.toNat ≤ 57) := by
  simp [octet, Char.isDigit] at h
  exact ⟨⟨h.1.1, h.1.2⟩, h.2.1, h.2.2⟩

theorem octet3_bounds (c1 c2 c3 : Char) (h : octet [c1, c2, c3] = true) :
    (c1.toNat = 49 ∧ (48 ≤ c2.toNat ∧ c2.toNat ≤ 57) ∧ (48 ≤ c3.toNat ∧ c3.toNat ≤ 57)) ∨
    (c1.toNat = 50 ∧ (48 ≤ c2.toNat ∧ c2.toNat ≤ 52) ∧ (48 ≤ c3.toNat ∧ c3.toNat ≤ 57)) ∨
    (c1.toNat = 50 ∧ c2.toNat = 53 ∧ (48 ≤ c3.toNat ∧ c3.toNat ≤ 53)) := by
  simp [octet, Char.isDigit] at h
  rcases h with (⟨⟨h1, h2a, h2b⟩, h3a, h3b⟩ | ⟨⟨⟨h1, h2a⟩, h2b⟩, h3a, h3b⟩) |
    ⟨⟨⟨h1, h2⟩, h3a⟩, h3b⟩
  · subst h1
    exact Or.inl ⟨charNat_1, ⟨h2a, h2b⟩, h3a, h3b⟩
  · subst h1
    exact Or.inr (Or.inl ⟨charNat_2, ⟨h2a, h2b⟩, h3a, h3b⟩)
  · subst h1
    subst h2
    exact Or.inr (Or.inr ⟨charNat_2, charNat_5, h3a, h3b⟩)

theorem octet_no_dot (x : Str) (h : octet x = true) : ¬ ('.' ∈ x) := by
  intro hm
  rcases octet_shape x h with ⟨c1, rfl⟩ | ⟨c1, c2, rfl⟩ | ⟨c1, c2, c3, rfl⟩
  · have hb := octet1_bounds c1 h
    simp only [List.mem_singleton] at hm
    rw [← hm, charNat_dot] at hb
    omega
  · have hb := octet2_bounds c1 c2 h
    simp only [List.mem_cons, List.mem_singleton, List.not_mem_nil, or_false] at hm
    rcases hm with hm | hm <;> rw [← hm, charNat_dot] at hb <;> omega
  · have hb := octet3_bounds c1 c2 c3 h
    simp only [List.mem_cons, List.mem_singleton, List.not_mem_nil, or_false] at hm
    rcases hm with hm | hm | hm <;> rw [← hm, charNat_dot] at hb <;> omega

theorem octetVal_one (c1 : Char) : octetVal [c1] = c1.toNat - 48 := by
  simp [octetVal, digitVal]

theorem octetVal_two (c1 c2 : Char) :
    octetVal [c1, c2] = (c1.toNat - 48) * 10 + (c2.toNat - 48) := by
  simp [octetVal, digitVal]

theorem octetVal_three (c1 c2 c3 : Char) :
    octetVal [c1, c2, c3] =
      ((c1.toNat - 48) * 10 + (c2.toNat - 48)) * 10 + (c3.toNat - 48) := by
  simp [octetVal, digitVal]

set_option maxHeartbeats 1000000 in
theorem prefix_a2_iff (q1 q2 : Char) (a tail : Str) (ha : octet a = true)
    (hq1 : 49 ≤ q1.toNat ∧ q1.toNat ≤ 57) (hq2 : 48 ≤ q2.toNat ∧ q2.toNat ≤ 57) :
    List.isPrefixOf [q1, q2, '.'] (a ++ '.' :: tail) = true ↔
      octetVal a = (q1.toNat - 48) * 10 + (q2.toNat - 48) := by
  rcases octet_shape a ha with ⟨c1, rfl⟩ | ⟨c1, c2, rfl⟩ | ⟨c1, c2, c3, rfl⟩
  · have hba := octet1_bounds c1 ha
    rw [octetVal_one]
    have hdead : (q2 == '.') = false := by
      rw [beq_eq_false_iff_ne]
      intro he
      rw [char_eq_iff_toNat, charNat_dot] at he
      omega
    simp only [List.cons_append, List.nil_append]
    simp [List.isPrefixOf, hdead]
    omega
  · have hba := octet2_bounds c1 c2 ha
    rw [octetVal_two]
    simp only [List.cons_append, List.nil_append]
    simp [List.isPrefixOf]
    simp only [char_eq_iff_toNat, charNat_dot]
    omega
  · have hba := octet3_bounds c1 c2 c3 ha
    rw [octetVal_three]
    simp only [List.cons_append, List.nil_append]
    simp [List.isPrefixOf]
    simp only [char_eq_iff_toNat, charNat_dot]
    omega

set_option maxHeartbeats 1000000 in
theorem prefix_a3_iff (q1 q2 q3 : Char) (a tail : Str) (ha : octet a = true)
    (hq1 : 49 ≤ q1.toNat ∧ q1.toNat ≤ 57) (hq2 : 48 ≤ q2.toNat ∧ q2.toNat ≤ 57)
    (hq3 : 48 ≤ q3.toNat ∧ q3.toNat ≤ 57) :
    List.isPrefixOf [q1, q2, q3, '.'] (a ++ '.' :: tail) = true ↔
      octetVal a = ((q1.toNat - 48) * 10 + (q2.toNat - 48)) * 10 + (q3.toNat - 48) := by
  rcases octet_shape a ha with ⟨c1, rfl⟩ | ⟨c1, c2, rfl⟩ | ⟨c1, c2, c3, rfl⟩
  · have hba := octet1_bounds c1 ha
    rw [octetVal_one]
    have hdead : (q2 == '.') = false := by
      rw [beq_eq_false_iff_ne]
      intro he
      rw [char_eq_iff_toNat, charNat_dot] at he
      omega
    simp only [List.cons_append, List.nil_append]
    simp [List.isPrefixOf, hdead]
    omega
  · have hba := octet2_bounds c1 c2 ha
    rw [octetVal_two]
    have hdead : (q3 == '.') = false := by
      rw [beq_eq_false_iff_ne]
      intro he
      rw [char_eq_iff_toNat, charNat_dot] at he
      omega
    simp only [List.cons_append, List.nil_append]
    simp [List.isPrefixOf, hdead]
    omega
  · have hba := octet3_bounds c1 c2 c3 ha
    rw [octetVal_three]
    simp only [List.cons_append, List.nil_append]
    simp [List.isPrefixOf]
    simp only [char_eq_iff_toNat, charNat_dot]
    omega

set_option maxHeartbeats 1000000 in
theorem prefix_ab32_iff (q1 q2 q3 p1 p2 : Char) (a b rest : Str)
    (ha : octet a = true) (hb : octet b = true)
    (hq1 : 49 ≤ q1.toNat ∧ q1.toNat ≤ 57) (hq2 : 48 ≤ q2.toNat ∧ q2.toNat ≤ 57)
    (hq3 : 48 ≤ q3.toNat ∧ q3.toNat ≤ 57)
    (hp1 : 49 ≤ p1.toNat ∧ p1.toNat ≤ 57) (hp2 : 48 ≤ p2.toNat ∧ p2.toNat ≤ 57) :
    List.isPrefixOf [q1, q2, q3, '.', p1, p2, '.'] (a ++ '.' :: (b ++ '.' :: rest)) = true ↔
      (octetVal a = ((q1.toNat - 48) * 10 + (q2.toNat - 48)) * 10 + (q3.toNat - 48) ∧
       octetVal b = (p1.toNat - 48) * 10 + (p2.toNat - 48)) := by
  rcases octet_shape a ha with ⟨c1, rfl⟩ | ⟨c1, c2, rfl⟩ | ⟨c1, c2, c3, rfl⟩
  · have hba := octet1_bounds c1 ha
    rw [octetVal_one]
    have hdead : (q2 == '.') = false := by
      rw [beq_eq_false_iff_ne]
      intro he
      rw [char_eq_iff_toNat, charNat_dot] at he
      omega
    simp only [List.cons_append, List.nil_append]
    simp [List.isPrefixOf, hdead]
    omega
  · have hba := octet2_bounds c1 c2 ha
    rw [octetVal_two]
    have hdead : (q3 == '.') = false := by
      rw [beq_eq_false_iff_ne]
      intro he
      rw [char_eq_iff_toNat, charNat_dot] at he
      omega
    simp only [List.cons_append, List.nil_append]
    simp [List.isPrefixOf, hdead]
    omega
  · have hba := octet3_bounds c1 c2 c3 ha
    rw [octetVal_three]
    rcases octet_shape b hb with ⟨e1, rfl⟩ | ⟨e1, e2, rfl⟩ | ⟨e1, e2, e3, rfl⟩
    · have hbb := octet1_bounds e1 hb
      rw [octetVal_one]
      have hdead : (p2 == '.') = false := by
        rw [beq_eq_false_iff_ne]
        intro he
        rw [char_eq_iff_toNat, charNat_dot] at he
        omega
      simp only [List.cons_append, List.nil_append]
      simp [List.isPrefixOf, hdead]
      omega
    · have hbb := octet2_bounds e1 e2 hb
      rw [octetVal_two]
      simp only [List.cons_append, List.nil_append]
      simp [List.isPrefixOf]
      simp only [char_eq_iff_toNat, charNat_dot]
      omega
    · have hbb := octet3_bounds e1 e2 e3 hb
      rw [octetVal_three]
      have he3 : 48 ≤ e3.toNat := by
        rcases hbb with ⟨h1, h2, h3⟩ | ⟨h1, h2, h3⟩ | ⟨h1, h2, h3⟩ <;> exact h3.1
      have hdead : ('.' == e3) = false := by
        rw [beq_eq_false_iff_ne]
        intro he
        rw [char_eq_iff_toNat, charNat_dot] at he
        omega
      simp only [List.cons_append, List.nil_append]
      simp [List.isPrefixOf, hdead]
      omega

set_option maxHeartbeats 1000000 in
theorem prefix_ab33_iff (q1 q2 q3 p1 p2 p3 : Char) (a b rest : Str)
    (ha : octet a = true) (hb : octet b = true)
    (hq1 : 49 ≤ q1.toNat ∧ q1.toNat ≤ 57) (hq2 : 48 ≤ q2.toNat ∧ q2.toNat ≤ 57)
    (hq3 : 48 ≤ q3.toNat ∧ q3.toNat ≤ 57)
    (hp1 : 49 ≤ p1.toNat ∧ p1.toNat ≤ 57) (hp2 : 48 ≤ p2.toNat ∧ p2.toNat ≤ 57)
    (hp3 : 48 ≤ p3.toNat ∧ p3.toNat ≤ 57) :
    List.isPrefixOf [q1, q2, q3, '.', p1, p2, p3, '.']
        (a ++ '.' :: (b ++ '.' :: rest)) = true ↔
      (octetVal a = ((q1.toNat - 48) * 10 + (q2.toNat - 48)) * 10 + (q3.toNat - 48) ∧
       octetVal b = ((p1.toNat - 48) * 10 + (p2.toNat - 48)) * 10 + (p3.toNat - 48)) := by
  rcases octet_shape a ha with ⟨c1, rfl⟩ | ⟨c1, c2, rfl⟩ | ⟨c1, c2, c3, rfl⟩
  · have hba := octet1_bounds c1 ha
    rw [octetVal_one]
    have hdead : (q2 == '.') = false := by
      rw [beq_eq_false_iff_ne]
      intro he
      rw [char_eq_iff_toNat, charNat_dot] at he
      omega
    simp only [List.cons_append, List.nil_append]
    simp [List.isPrefixOf, hdead]
    omega
  · have hba := octet2_bounds c1 c2 ha
    rw [octetVal_two]
    have hdead : (q3 == '.') = false := by
      rw [beq_eq_false_iff_ne]
      intro he
      rw [char_eq_iff_toNat, charNat_dot] at he
      omega
    simp only [List.cons_append, List.nil_append]
    simp [List.isPrefixOf, hdead]
    omega
  · have hba := octet3_bounds c1 c2 c3 ha
    rw [octetVal_three]
    rcases octet_shape b hb with ⟨e1, rfl⟩ | ⟨e1, e2, rfl⟩ | ⟨e1, e2, e3, rfl⟩
    · have hbb := octet1_bounds e1 hb
      rw [octetVal_one]
      have hdead : (p2 == '.') = false := by
        rw [beq_eq_false_iff_ne]
        intro he
        rw [char_eq_iff_toNat, charNat_dot] at he
        omega
      simp only [List.cons_append, List.nil_append]
      simp [List.isPrefixOf, hdead]
      omega
    · have hbb := octet2_bounds e1 e2 hb
      rw [octetVal_two]
      have hdead : (p3 == '.') = false := by
        rw [beq_eq_false_iff_ne]
        intro he
        rw [char_eq_iff_toNat, charNat_dot] at he
        omega
      simp only [List.cons_append, List.nil_append]
      simp [List.isPrefixOf, hdead]
      omega
    · have hbb := octet3_bounds e1 e2 e3 hb
      rw [octetVal_three]
      simp only [List.cons_append, List.nil_append]
      simp [List.isPrefixOf]
      simp only [char_eq_iff_toNat, charNat_dot]
      omega

set_option maxHeartbeats 2000000 in
/-- The private-range pattern, evaluated on a dotted-quad shaped string
whose first two octets are valid, tests exactly the RFC 1918 + loopback
numeric ranges: first octet 10 or 127, or 172 with second octet 16-31,
or 192.168. -/
theorem priv_iff (a b rest : Str) (ha : octet a = true) (hb : octet b = true) :
    private_ipv4_match (a ++ '.' :: (b ++ '.' :: rest)) = true ↔
      (octetVal a = 10 ∨ octetVal a = 127 ∨
       (octetVal a = 172 ∧ 16 ≤ octetVal b ∧ octetVal b ≤ 31) ∨
       (octetVal a = 192 ∧ octetVal b = 168)) := by
  have h127 := prefix_a3_iff '1' '2' '7' a (b ++ '.' :: rest) ha
    (by decide) (by decide) (by decide)
  have h10 := prefix_a2_iff '1' '0' a (b ++ '.' :: rest) ha (by decide) (by decide)
  have h16 := prefix_ab32_iff '1' '7' '2' '1' '6' a b rest ha hb
    (by decide) (by decide) (by decide) (by decide) (by decide)
  have h17 := prefix_ab32_iff '1' '7' '2' '1' '7' a b rest ha hb
    (by decide) (by decide) (by decide) (by decide) (by decide)
  have h18 := prefix_ab32_iff '1' '7' '2' '1' '8' a b rest ha hb
    (by decide) (by decide) (by decide) (by decide) (by decide)
  have h19 := prefix_ab32_iff '1' '7' '2' '1' '9' a b rest ha hb
    (by decide) (by decide) (by decide) (by decide) (by decide)
  have h20 := prefix_ab32_iff '1' '7' '2' '2' '0' a b rest ha hb
    (by decide) (by decide) (by decide) (by decide) (by decide)
  have h21 := prefix_ab32_iff '1' '7' '2' '2' '1' a b rest ha hb
    (by decide) (by decide) (by decide) (by decide) (by decide)
  have h22 := prefix_ab32_iff '1' '7' '2' '2' '2' a b rest ha hb
    (by decide) (by decide) (by decide) (by decide) (by decide)
  have h23 := prefix_ab32_iff '1' '7' '2' '2' '3' a b rest ha hb
    (by decide) (by decide) (by decide) (by decide) (by decide)
  have h24 := prefix_ab32_iff '1' '7' '2' '2' '4' a b rest ha hb
    (by decide) (by decide) (by decide) (by decide) (by decide)
  have h25 := prefix_ab32_iff '1' '7' '2' '2' '5' a b rest ha hb
    (by decide) (by decide) (by decide) (by decide) (by decide)
  have h26 := prefix_ab32_iff '1' '7' '2' '2' '6' a b rest ha hb
    (by decide) (by decide) (by decide) (by decide) (by decide)
  have h27 := prefix_ab32_iff '1' '7' '2' '2' '7' a b rest ha hb
    (by decide) (by decide) (by decide) (by decide) (by decide)
  have h28 := prefix_ab32_iff '1' '7' '2' '2' '8' a b rest ha hb
    (by decide) (by decide) (by decide) (by decide) (by decide)
  have h29 := prefix_ab32_iff '1' '7' '2' '2' '9' a b rest ha hb
    (by decide) (by decide) (by decide) (by decide) (by decide)
  have h30 := prefix_ab32_iff '1' '7' '2' '3' '0' a b rest ha hb
    (by decide) (by decide) (by decide) (by decide) (by decide)
  have h31 := prefix_ab32_iff '1' '7' '2' '3' '1' a b rest ha hb
    (by decide) (by decide) (by decide) (by decide) (by decide)
  have h192 := prefix_ab33_iff '1' '9' '2' '1' '6' '8' a b rest ha hb
    (by decide) (by decide) (by decide) (by decide) (by decide) (by decide)
  have e127 : pstr ("127.") = ['1', '2', '7', '.'] := rfl
  have e10 : pstr ("10.") = ['1', '0', '.'] := rfl
  have e16 : pstr ("172.16.") = ['1', '7', '2', '.', '1', '6', '.'] := rfl
  have e17 : pstr ("172.17.") = ['1', '7', '2', '.', '1', '7', '.'] := rfl
  have e18 : pstr ("172.18.") = ['1', '7', '2', '.', '1', '8', '.'] := rfl
  have e19 : pstr ("172.19.") = ['1', '7', '2', '.', '1', '9', '.'] := rfl
  have e20 : pstr ("172.20.") = ['1', '7', '2', '.', '2', '0', '.'] := rfl
  have e21 : pstr ("172.21.") = ['1', '7', '2', '.', '2', '1', '.'] := rfl
  have e22 : pstr ("172.22.") = ['1', '7', '2', '.', '2', '2', '.'] := rfl
  have e23 : pstr ("172.23.") = ['1', '7', '2', '.', '2', '3', '.'] := rfl
  have e24 : pstr ("172.24.") = ['1', '7', '2', '.', '2', '4', '.'] := rfl
  have e25 : pstr ("172.25.") = ['1', '7', '2', '.', '2', '5', '.'] := rfl
  have e26 : pstr ("172.26.") = ['1', '7', '2', '.', '2', '6', '.'] := rfl
  have e27 : pstr ("172.27.") = ['1', '7', '2', '.', '2', '7', '.'] := rfl
  have e28 : pstr ("172.28.") = ['1', '7', '2', '.', '2', '8', '.'] := rfl
  have e29 : pstr ("172.29.") = ['1', '7', '2', '.', '2', '9', '.'] := rfl
  have e30 : pstr ("172.30.") = ['1', '7', '2', '.', '3', '0', '.'] := rfl
  have e31 : pstr ("172.31.") = ['1', '7', '2', '.', '3', '1', '.'] := rfl
  have e192 : pstr ("192.168.") = ['1', '9', '2', '.', '1', '6', '8', '.'] := rfl
  simp only [private_ipv4_match, e127, e10, e16, e17, e18, e19, e20, e21, e22, e23, e24, e25, e26, e27, e28, e29, e30, e31, e192, Bool.or_eq_true]
  rw [h127, h10, h16, h17, h18, h19, h20, h21, h22, h23, h24, h25, h26, h27, h28, h29, h30, h31, h192]
  simp only [charNat_0, charNat_1, charNat_2, charNat_3, charNat_4, charNat_5,
    charNat_6, charNat_7, charNat_8, charNat_9]
  generalize octetVal a = va
  generalize octetVal b = vb
  constructor
  · intro h
    omega
  · rintro (rfl | rfl | ⟨rfl, hlo, hhi⟩ | ⟨rfl, rfl⟩)
    · iterate 17 left
      right
      decide
    · iterate 18 left
      decide
    · have hd : vb = 16 ∨ vb = 17 ∨ vb = 18 ∨ vb = 19 ∨ vb = 20 ∨ vb = 21 ∨
          vb = 22 ∨ vb = 23 ∨ vb = 24 ∨ vb = 25 ∨ vb = 26 ∨ vb = 27 ∨ vb = 28 ∨
          vb = 29 ∨ vb = 30 ∨ vb = 31 := by omega
      rcases hd with rfl | rfl | rfl | rfl | rfl | rfl | rfl | rfl | rfl | rfl | rfl | rfl | rfl | rfl | rfl | rfl
      · iterate 16 left
        right
        exact ⟨by decide, by decide⟩
      · iterate 15 left
        right
        exact ⟨by decide, by decide⟩
      · iterate 14 left
        right
        exact ⟨by decide, by decide⟩
      · iterate 13 left
        right
        exact ⟨by decide, by decide⟩
      · iterate 12 left
        right
        exact ⟨by decide, by decide⟩
      · iterate 11 left
        right
        exact ⟨by decide, by decide⟩
      · iterate 10 left
        right
        exact ⟨by decide, by decide⟩
      · iterate 9 left
        right
        exact ⟨by decide, by decide⟩
      · iterate 8 left
        right
        exact ⟨by decide, by decide⟩
      · iterate 7 left
        right
        exact ⟨by decide, by decide⟩
      · iterate 6 left
        right
        exact ⟨by decide, by decide⟩
      · iterate 5 left
        right
        exact ⟨by decide, by decide⟩
      · iterate 4 left
        right
        exact ⟨by decide, by decide⟩
      · iterate 3 left
        right
        exact ⟨by decide, by decide⟩
      · iterate 2 left
        right
        exact ⟨by decide, by decide⟩
      · iterate 1 left
        right
        exact ⟨by decide, by decide⟩
    · right
      exact ⟨by decide, by decide⟩

/-- C7 (confirmed): for every input that fully matches the IPv4 literal
pattern (four dot-separated valid octets), `parse` returns the IP-literal
`ParsedResult` — whose fields are all null except `host_labels = [f]`,
`ipv4 = true`, `ipv6 = false` — and on that result `is_ipv4_private`
returns `true` exactly when the literal lies in the RFC 1918 or loopback
ranges (first octet 10 or 127, 172 with second octet 16-31, or 192.168);
on any result that is not an IPv4 literal, `is_ipv4_private` returns
`None`. -/
theorem C7_theorem (S : Suffixes) (a b c d f : Str)
    (ha : octet a = true) (hb : octet b = true) (hc : octet c = true) (hd : octet d = true)
    (hf : f = a ++ '.' :: (b ++ '.' :: (c ++ '.' :: d))) :
    ipv4_match f = true ∧
    S.parse f false true = .ok (some (ip_result f true)) ∧
    ip_result f true = ParsedResult.mk Option.none Option.none Option.none Option.none
      Option.none Option.none Option.none [f] true false ∧
    ((ip_result f true).is_ipv4_private = .ok (some true) ↔
      (octetVal a = 10 ∨ octetVal a = 127 ∨
       (octetVal a = 172 ∧ 16 ≤ octetVal b ∧ octetVal b ≤ 31) ∨
       (octetVal a = 192 ∧ octetVal b = 168))) ∧
    (∀ r : ParsedResult, r.ipv4 = false → r.is_ipv4_private = .ok Option.none) := by
  subst hf
  have hsd : splitDot (a ++ '.' :: (b ++ '.' :: (c ++ '.' :: d))) = [a, b, c, d] := by
    rw [splitDot_append a _ (octet_no_dot a ha), splitDot_append b _ (octet_no_dot b hb),
      splitDot_append c _ (octet_no_dot c hc), splitDot_no_dot d (octet_no_dot d hd)]
  have h4 : ipv4_match (a ++ '.' :: (b ++ '.' :: (c ++ '.' :: d))) = true := by
    simp [ipv4_match, ipv4_body, hsd, ha, hb, hc, hd]
  refine ⟨h4, ?_, rfl, ?_, ?_⟩
  · simp [Suffixes.parse, h4]
  · have hpriv : (ip_result (a ++ '.' :: (b ++ '.' :: (c ++ '.' :: d))) true).is_ipv4_private =
        .ok (some (private_ipv4_match (a ++ '.' :: (b ++ '.' :: (c ++ '.' :: d))))) := rfl
    rw [hpriv]
    have hp := priv_iff a b (c ++ '.' :: d) ha hb
    constructor
    · intro he
      injection he with he2
      injection he2 with he3
      exact hp.mp he3
    · intro hr
      rw [hp.mpr hr]
  · intro r hr
    simp [ParsedResult.is_ipv4_private, hr]

/-- C7 witness: `parse` on the private literal "10.55.55.55"
(`is_ipv4_private = some true`) and the public literal "65.22.218.1"
(`is_ipv4_private = some false`). -/
theorem C7_witness :
    (Suffixes.mk Trie.empty []).parse (pstr ("10.55.55.55")) false true =
      .ok (some (ip_result (pstr ("10.55.55.55")) true)) ∧
    (ip_result (pstr ("10.55.55.55")) true).is_ipv4_private = .ok (some true) ∧
    (Suffixes.mk Trie.empty []).parse (pstr ("65.22.218.1")) false true =
      .ok (some (ip_result (pstr ("65.22.218.1")) true)) ∧
    (ip_result (pstr ("65.22.218.1")) true).is_ipv4_private = .ok (some false) := by
  have h1 := C7_theorem (Suffixes.mk Trie.empty []) (pstr ("10")) (pstr ("55")) (pstr ("55"))
    (pstr ("55")) (pstr ("10.55.55.55")) (by rfl) (by rfl) (by rfl) (by rfl) (by rfl)
  have h2 := C7_theorem (Suffixes.mk Trie.empty []) (pstr ("65")) (pstr ("22")) (pstr ("218"))
    (pstr ("1")) (pstr ("65.22.218.1")) (by rfl) (by rfl) (by rfl) (by rfl) (by rfl)
  refine ⟨h1.2.1, h1.2.2.2.1.mpr (by decide), h2.2.1, by rfl⟩

end DomainSuffixes
